import Mathlib

/-!
Verification development for the ostrich-egg latent-revelation suppression
engine.  The Python sources are shallowly embedded as executable Lean
functions: numeric SQL/Python values become rationals or integers, nullable
values become `Option`, fallible operations return `Except`, and the stateful
fixed-point kernel becomes explicit state passing over lists of rows.
-/

namespace OstrichEgg

/-- Embedding of `utils.should_redact_along_axis` (src/ostrich_egg/utils.py,
lines 70-112).  This is the variant registered as the duckdb scalar UDF by
`connectors/base.py`.  `previous_cell_redacted` and
`previous_cell_is_anonymous` are `Option Bool` because the Python parameters
admit `None`; the Python identity tests `previous_cell_redacted is False` and
`previous_cell_is_anonymous is False` are embedded as equality with
`some false`. -/
def should_redact_along_axis (incidence : ℚ) (masked_value_count : ℤ)
    (minimum_threshold : ℚ) (is_anonymous : Bool)
    (previous_cell_redacted : Option Bool)
    (previous_cell_is_anonymous : Option Bool)
    (run_sum_by_axis : ℚ) (first_order_only : Bool) : Bool :=
  if !is_anonymous then
    true
  else if previous_cell_redacted == some false then
    false
  else if minimum_threshold ≤ run_sum_by_axis - incidence then
    if first_order_only then
      previous_cell_is_anonymous == some false && decide (masked_value_count < 2)
    else
      decide (masked_value_count < 2)
  else
    true

namespace RedactionUtils

/-- Embedding of `redaction_utils.should_redact_along_axis`
(src/ostrich_egg/redaction_utils.py), the standalone variant without
`first_order_only`.  Its final statement is
`return previous_cell_redacted is not None`, so a `None` predecessor never
triggers a redaction. -/
def should_redact_along_axis (incidence : ℚ) (masked_value_count : ℤ)
    (minimum_threshold : ℚ) (is_anonymous : Bool)
    (previous_cell_redacted : Option Bool) (run_sum_by_axis : ℚ) : Bool :=
  if !is_anonymous then
    true
  else if previous_cell_redacted == some false then
    false
  else if decide (minimum_threshold ≤ run_sum_by_axis - incidence)
      && decide ((2 : ℤ) ≤ masked_value_count) then
    false
  else
    previous_cell_redacted != none

end RedactionUtils

/-- `config.DEFAULT_THRESHOLD` (src/ostrich_egg/config.py line 12). -/
def DEFAULT_THRESHOLD : ℤ := 11

/-- Python falsiness of an optional string (`if not redaction_expression`):
`None` and the empty string are falsy. -/
def falsy_str : Option String → Bool
  | none => true
  | some s => decide (s.length = 0)

/-- Embedding of the `Engine.redaction_expression` property (engine.py lines
174-179): the configured expression if truthy, otherwise
`f"{self.metrics[0].alias} < {DEFAULT_THRESHOLD}"`.  Note that the fallback
interpolates the module constant `DEFAULT_THRESHOLD`, not the configured
`threshold`. -/
def redaction_expression (config_redaction_expression : Option String)
    (first_metric_alias : String) : String :=
  if falsy_str config_redaction_expression then
    first_metric_alias ++ " < " ++ toString DEFAULT_THRESHOLD
  else
    config_redaction_expression.getD ""

/-- The claim's reading of the default redaction predicate:
`<first metric alias> < threshold` with the *configured* threshold.  Kept
separate so it can be compared with `redaction_expression`, which is the
embedding of the source. -/
def redaction_expression_spec (config_redaction_expression : Option String)
    (first_metric_alias : String) (threshold : ℤ) : String :=
  if falsy_str config_redaction_expression then
    first_metric_alias ++ " < " ++ toString threshold
  else
    config_redaction_expression.getD ""

/-- Embedding of the `Engine.anonymous_expression` property (engine.py lines
185-193): the negation of the redaction expression. -/
def anonymous_expression (config_redaction_expression : Option String)
    (first_metric_alias : String) : String :=
  "not " ++ redaction_expression config_redaction_expression first_metric_alias

/-- Embedding of `utils.identifier` (utils.py lines 27-32): wrap in double
quotes after stripping any double quotes already present
(`column.replace('"', '')`, i.e. dropping every double-quote character). -/
def identifier (column : String) : String :=
  "\"" ++ String.mk (column.data.filter fun c => c ≠ '"') ++ "\""

/-- Embedding of the `order_by_columns` construction in
`Engine.redact_from_non_anonymous_cells` (engine.py lines 649-653): the base
ORDER BY list before `redaction_order_dimensions` handling. -/
def order_by_columns_base (dimension first_metric_alias : String) : List String :=
  ["is_redacted desc", identifier dimension, identifier first_metric_alias]

/-- The list the code passes to `list(set(...))` when
`redaction_order_dimensions` is set (engine.py lines 654-663):
`[identifier(d) for d in redaction_order_dimensions] + order_by_columns`. -/
def order_by_columns_input (redaction_order_dimensions : List String)
    (dimension first_metric_alias : String) : List String :=
  redaction_order_dimensions.map identifier
    ++ order_by_columns_base dimension first_metric_alias

/-- Semantics of CPython's `list(set(xs))` for the embedding: the set
enumeration order is unspecified (it depends on the randomized string hash
seed), so the only guarantee is that the output is some duplicate-free
enumeration of the elements, i.e. a permutation of `xs.dedup`. -/
def python_list_set_admissible (input out : List String) : Prop :=
  out.Perm input.dedup

/-- Minimal engine state for the strategy dispatcher: the accumulated
redaction bookkeeping (`Engine.redactions` keys and the output table are
irrelevant to the dispatch itself). -/
structure EngineState where
  redactions : List String
deriving DecidableEq

/-- Python exceptions surfaced by the dispatcher; `merge_dimension_values`
raises `NotImplementedError` (engine.py lines 737-741). -/
inductive EngineError where
  | notImplemented (msg : String)
deriving DecidableEq

/-- Embedding of `Engine.process_one_suppression_strategy` (engine.py lines
812-818): dispatch on the strategy discriminator string.
`Engine.merge_dimension_values` raises `NotImplementedError` as its first
statement, before touching any state.  A discriminator with no matching
branch falls through: the method returns with no effect.  The two implemented
handlers are parameters because their behavior is irrelevant here. -/
def process_one_suppression_strategy
    (replace_with_redacted mark_redacted : EngineState → EngineState)
    (strategy : String) (s : EngineState) : Except EngineError EngineState :=
  if strategy == "merge-dimension-values" then
    Except.error (EngineError.notImplemented
      "This actually needs more thoughtful implementation, but so-far irrelevant to proof of concept. ")
  else if strategy == "replace-with-redacted" then
    Except.ok (replace_with_redacted s)
  else if strategy == "mark-redacted" then
    Except.ok (mark_redacted s)
  else
    Except.ok s

/-- A row of the materialized `result` table: `payload` stands for the
dimension and metric columns, which redaction marking never touches. -/
structure ResultRow where
  payload : ℕ
  is_anonymous : Bool
deriving DecidableEq

/-- A row of the `output` table after `modify_output_for_redaction` added the
redaction columns. -/
structure OutputRow where
  payload : ℕ
  is_anonymous : Bool
  is_redacted : Bool
  redaction_reason : Option String
deriving DecidableEq

/-- Embedding of `Engine.modify_output_for_redaction` (engine.py lines
752-774): copy `result` into `output`, add `is_redacted` with default false
and a null `redaction_reason`, then set `is_redacted = true` together with
the reason text on every row where `not is_anonymous`. -/
def modify_output_for_redaction (redaction_expr : String)
    (result : List ResultRow) : List OutputRow :=
  result.map fun r =>
    if !r.is_anonymous then
      { payload := r.payload, is_anonymous := r.is_anonymous, is_redacted := true,
        redaction_reason :=
          some ("value meets redaction criteria \x27" ++ redaction_expr ++ "\x27") }
    else
      { payload := r.payload, is_anonymous := r.is_anonymous, is_redacted := false,
        redaction_reason := none }

/-- Modelled from the spec: `update_output_from_redaction_context.sql` is
loaded from a template package that is not under `src/`; spec section 4.4(d)
says applying the to-redact set means setting `is_redacted = true` on those
rows (appending provenance) and never unsetting it.  `apply_to_redact idxs k
rows` sets `is_redacted := true` on every row whose absolute index (the head
of `rows` having index `k`) is in `idxs`, leaving everything else alone. -/
def apply_to_redact (idxs : List ℕ) : ℕ → List OutputRow → List OutputRow
  | _, [] => []
  | k, r :: rest =>
    (if k ∈ idxs then { r with is_redacted := true } else r)
      :: apply_to_redact idxs (k + 1) rest

/-- Modelled from the spec: `check_redacted_context.sql` is loaded from a
template package that is not under `src/`; spec section 4.4(c) says the
to-redact set collects rows where `should_redact AND NOT is_redacted`.  The
check is kept abstract as a function from the output table to row indices;
`check_sound` is the guarantee section 4.4(c) provides: every returned index
is a valid, currently non-redacted row. -/
def check_sound (check : List OutputRow → List ℕ) : Prop :=
  ∀ s : List OutputRow, ∀ i ∈ check s,
    ∃ h : i < s.length, (s.get ⟨i, h⟩).is_redacted = false

/-- Embedding of the inner fixed-point loop of
`Engine.redact_from_non_anonymous_cells` (engine.py lines 711-723): while the
to-redact set is non-empty, apply it to the output table and re-derive the
redaction context and the to-redact set.  The Python loop has no iteration
cap of any kind; `fuel` is the iteration budget of the embedding, and a
`none` result means the loop is still running after `fuel` iterations. -/
def kernel_loop_fuel (check : List OutputRow → List ℕ) :
    ℕ → List OutputRow → Option (List OutputRow)
  | 0, s => if check s = [] then some s else none
  | fuel + 1, s =>
    if check s = [] then some s
    else kernel_loop_fuel check fuel (apply_to_redact (check s) 0 s)

/-- Embedding of the outer loop of `Engine.redact_from_non_anonymous_cells`
over dimension subsets (engine.py lines 693-723): each enumerated subset gets
its own redaction-context check, processed sequentially; here each subset's
inner loop is given an iteration budget of one per output row. -/
def run_subsets (checks : List (List OutputRow → List ℕ))
    (s : List OutputRow) : Option (List OutputRow) :=
  match checks with
  | [] => some s
  | c :: rest =>
    match kernel_loop_fuel c s.length s with
    | none => none
    | some s2 => run_subsets rest s2

/-- Number of rows not yet redacted; the termination measure of the kernel. -/
def count_non_redacted (s : List OutputRow) : ℕ :=
  (s.filter fun r => !r.is_redacted).length

/-- A sound concrete check: the indices of rows that are non-anonymous and
not yet redacted (the primary-suppression part of the to-redact set). -/
def check_non_redacted_non_anonymous (s : List OutputRow) : List ℕ :=
  (List.range s.length).filter fun i =>
    match s.get? i with
    | some r => !r.is_anonymous && !r.is_redacted
    | none => false

/-- A divergent to-redact computation: it always demands row 0.  Nothing in
the Python loop guards against such behavior of the SQL layer. -/
def bad_check : List OutputRow → List ℕ := fun _ => [0]

/-- A one-row output table. -/
def one_row_output : List OutputRow := [⟨0, true, false, none⟩]

/-- Concrete two-row result table used to witness the redaction-marking
invariants. -/
def example_result : List ResultRow := [⟨0, true⟩, ⟨1, false⟩]

/-- A row of the `identify_peers` relation restricted to the columns the
peer-collection loop reads: the target-dimension value, the subsequent
primary metric (`m_0`) and the aggregated `is_anonymous` flag. -/
structure PeerRow where
  dimension_value : String
  m_0 : ℤ
  is_anonymous : Bool
deriving DecidableEq

/-- Embedding of the working-subtotal query inside
`Engine._collect_redactions_from_peer_relation` (engine.py lines 508-530):
re-aggregate the subsequent metric (`sum(m_0)`) over every `identify_peers`
row whose `dimension_value` is among the seen values. -/
def working_subtotal (identify_peers : List PeerRow)
    (seen_values : List String) : ℤ :=
  ((identify_peers.filter fun r => r.dimension_value ∈ seen_values).map
    PeerRow.m_0).sum

/-- Embedding of the while loop of
`Engine._collect_redactions_from_peer_relation` (engine.py lines 493-594).
`anon_of_sum` evaluates the rendered `anonymous_expression` on the aggregated
working subtotal (by default `not (m_0 < 11)`).  The peer rows arrive sorted
by `(is_anonymous, m_0, dimension_value nulls last)`; `idx` is
`within_peer_index`, `seen` is `seen_values`, `mask` is `values_to_mask` and
`must` is `must_anonymize_next`. -/
def collect_loop (anon_of_sum : ℤ → Bool) (identify_peers : List PeerRow) :
    List PeerRow → ℕ → List String → List String → Bool → List String × Bool
  | [], _, _, mask, must => (mask, must)
  | r :: rest, idx, seen, mask, must =>
    let value_is_fine := r.is_anonymous
    let seen2 := seen ++ [r.dimension_value]
    let working_total_is_fine :=
      if 0 < idx then anon_of_sum (working_subtotal identify_peers seen2)
      else value_is_fine
    let first_value_is_good := idx == 0 && value_is_fine
    let sufficient_prior_redaction :=
      decide (2 ≤ mask.length) && working_total_is_fine
    let must2 := if sufficient_prior_redaction then false else must
    if !must2 && first_value_is_good then
      (mask, must2)
    else if !value_is_fine then
      collect_loop anon_of_sum identify_peers rest (idx + 1) seen2
        (mask ++ [r.dimension_value]) true
    else if must2 && value_is_fine then
      (mask ++ [r.dimension_value], false)
    else if !sufficient_prior_redaction || must2 then
      let mask2 := mask ++ [r.dimension_value]
      let must3 :=
        if decide (2 ≤ mask2.length) && (working_total_is_fine || value_is_fine)
        then false else must2
      collect_loop anon_of_sum identify_peers rest (idx + 1) seen2 mask2 must3
    else
      (mask, false)

/-- Embedding of `Engine._collect_redactions_from_peer_relation` (engine.py
lines 476-618), reduced to the data the claim is about: the ordered list of
target-dimension values to mask and the outgoing `must_anonymize_next`
flag (the returned `RedactionIterationResult` maps exactly the returned
values to the masking value). -/
def collect_redactions_from_peer_relation (anon_of_sum : ℤ → Bool)
    (identify_peers this_peer_rows : List PeerRow)
    (must_anonymize_next : Bool) : List String × Bool :=
  collect_loop anon_of_sum identify_peers this_peer_rows 0 [] []
    must_anonymize_next

/-- The default rendered `anonymous_expression` at threshold 11:
`not (m_0 < 11)` evaluated on an aggregated metric value. -/
def anon_at_11 : ℤ → Bool := fun s => !(decide (s < 11))

/-- The single-axis peer group of the two-redaction-enforcement scenario,
already in the loop's ordering `(is_anonymous, m_0, dimension_value)`:
race values white=100, black=50, asian=20, native_am=10 at threshold 11.
Each row's `is_anonymous` is `not (m_0 < 11)` for its own metric value. -/
def race_peer_rows : List PeerRow :=
  [⟨"native_am", 10, false⟩, ⟨"asian", 20, true⟩,
   ⟨"black", 50, true⟩, ⟨"white", 100, true⟩]

/-- Aggregation kinds (`config.Aggregations`, config.py lines 171-179). -/
inductive Aggregation where
  | any_value
  | array_agg
  | avg
  | count
  | count_distinct
  | max
  | min
  | sum
deriving DecidableEq

/-- Embedding of `config.Metric` restricted to the fields the metrics setter
reads and writes.  `is_subsequent` carries the value pydantic computed at
validation time (defaulting to `not is_initial` unless the user overrode
it). -/
structure Metric where
  aggregation : Aggregation
  column : String
  «alias» : Option String
  is_initial : Bool
  is_subsequent : Bool
deriving DecidableEq

/-- Python falsiness of the optional alias in
`metric.alias or f"m_{index}"`: `None` and the empty string are falsy. -/
def falsy_alias : Option String → Bool
  | none => true
  | some s => decide (s.length = 0)

/-- The alias-assignment loop of the `Engine.metrics` setter (engine.py lines
128-129): every metric with a falsy alias gets `m_<index>`. -/
def assign_aliases : ℕ → List Metric → List Metric
  | _, [] => []
  | i, m :: rest =>
    { m with
      «alias» := if falsy_alias m.alias then some ("m_" ++ toString i) else m.alias }
      :: assign_aliases (i + 1) rest

/-- The default-metric branch of the `Engine.metrics` setter (engine.py lines
119-127): with no metrics configured, use `count(*)`, or
`count(distinct unit_level_id)` when a unit-level id is set; the default
metric is created with `is_initial=True` (so pydantic defaults
`is_subsequent` to false). -/
def default_metrics (unit_level_id : Option String)
    (metrics0 : List Metric) : List Metric :=
  if metrics0.isEmpty then
    match unit_level_id with
    | some uid => [⟨Aggregation.count_distinct, uid, none, true, false⟩]
    | none => [⟨Aggregation.count, "*", none, true, false⟩]
  else
    metrics0

/-- The single-metric duplication branch of the `Engine.metrics` setter
(engine.py lines 130-138): when exactly one metric is present *and it is
initial*, append a subsequent `sum` over its alias (pydantic defaults the new
metric's `is_subsequent` to true). -/
def with_sum_duplicate (metrics : List Metric) : List Metric :=
  match metrics with
  | [m] =>
    if m.is_initial then
      [m, ⟨Aggregation.sum, m.alias.getD "", m.alias, false, true⟩]
    else [m]
  | l => l

/-- The phase-fixup tail of the `Engine.metrics` setter (engine.py lines
139-154): split into initial and subsequent metrics; if one side is empty,
flag the other side's metrics to serve both phases; finally concatenate
initial then subsequent. -/
def fix_phases (metrics : List Metric) : List Metric :=
  let initial_metrics := metrics.filter fun m => m.is_initial
  let subsequent_metrics := metrics.filter fun m => !m.is_initial
  if initial_metrics.isEmpty then
    subsequent_metrics.map fun m => { m with is_initial := true }
  else if subsequent_metrics.isEmpty then
    initial_metrics.map fun m => { m with is_subsequent := true }
  else
    initial_metrics ++ subsequent_metrics

/-- Embedding of the whole `Engine.metrics` setter (engine.py lines
113-154). -/
def metrics_setter (unit_level_id : Option String)
    (metrics0 : List Metric) : List Metric :=
  fix_phases (with_sum_duplicate (assign_aliases 0 (default_metrics unit_level_id metrics0)))

/-- A metric alias that is present and non-empty. -/
def alias_nonempty (m : Metric) : Bool :=
  match m.alias with
  | some s => decide (0 < s.length)
  | none => false

/-- A single configured metric that is not flagged initial and whose
`is_subsequent` was explicitly set to false (overriding pydantic's
default). -/
def single_subsequent_metric : Metric :=
  ⟨Aggregation.sum, "n", none, false, false⟩

/-- duckdb filter expressions produced by `dict_to_filter_expressions`:
either `column IN (value)` or `column IS NULL`. -/
inductive DuckExpr where
  | isin (col : String) (v : String)
  | isNull (col : String)
deriving DecidableEq

/-- Embedding of `utils.dict_to_filter_expressions` (utils.py lines 35-43): a
key with a non-null recorded value becomes `col IN (value)`; a key recorded
as None becomes `col IS NULL`.  Dicts are embedded as association lists. -/
def dict_to_filter_expressions
    (data : List (String × Option String)) : List DuckExpr :=
  data.map fun kv =>
    match kv.2 with
    | some v => DuckExpr.isin kv.1 v
    | none => DuckExpr.isNull kv.1

/-- One rendered `when <condition> then <value>` branch
(`utils.make_when_statement_from_dict` compiles the filter expressions joined
by `and` together with the constant value). -/
structure WhenStatement where
  condition : List DuckExpr
  value : String
deriving DecidableEq

/-- Embedding of `utils.make_when_statement_from_dict` (utils.py lines
61-67). -/
def make_when_statement_from_dict (data : List (String × Option String))
    (value : String) : WhenStatement :=
  ⟨dict_to_filter_expressions data, value⟩

/-- Embedding of `Engine.make_when_statements_from_redaction` (engine.py
lines 262-274): for each `(old, new)` pair of the remapped lookup, the
redaction coordinate map is the peer's other-dimension values extended with
`dimension ↦ old`, and the branch rewrites to `new`. -/
def make_when_statements_from_redaction
    (other_dimension_values : List (String × Option String))
    (dimension : String)
    (remapped_lookup : List (Option String × String)) : List WhenStatement :=
  remapped_lookup.map fun p =>
    make_when_statement_from_dict
      (other_dimension_values ++ [(dimension, p.1)]) p.2

/-- SQL semantics of one filter expression on a row (a map from column to
nullable value, `none` = SQL NULL): `col IN (v)` is true only for a non-null
equal value (`NULL IN (v)` is not true), `col IS NULL` is true exactly for
NULL. -/
def evalDuckExpr (row : String → Option String) : DuckExpr → Bool
  | .isin col v => row col == some v
  | .isNull col => row col == none

/-- Semantics of one `when … then …` branch: the produced value when all
conjuncts hold. -/
def evalWhenStatement (row : String → Option String)
    (w : WhenStatement) : Option String :=
  if w.condition.all (evalDuckExpr row) then some w.value else none

/-- Concrete row used to witness the NULL-dimension rewriting: `age` is
`"20"`, every other column (in particular the target dimension) is NULL. -/
def example_row : String → Option String :=
  fun c => if c = "age" then some "20" else none

theorem count_non_redacted_cons (r : OutputRow) (s : List OutputRow) :
    count_non_redacted (r :: s)
      = (if r.is_redacted then 0 else 1) + count_non_redacted s := by
  by_cases hr : r.is_redacted <;>
    simp [count_non_redacted, List.filter_cons, hr, Nat.add_comm]

theorem apply_to_redact_length (idxs : List ℕ) (k : ℕ) (s : List OutputRow) :
    (apply_to_redact idxs k s).length = s.length := by
  induction s generalizing k with
  | nil => rfl
  | cons r rest ih => simp [apply_to_redact, ih]

theorem apply_to_redact_get (idxs : List ℕ) :
    ∀ (s : List OutputRow) (k i : ℕ) (h : i < s.length)
      (h2 : i < (apply_to_redact idxs k s).length),
      (apply_to_redact idxs k s).get ⟨i, h2⟩
        = if (k + i) ∈ idxs then { s.get ⟨i, h⟩ with is_redacted := true }
          else s.get ⟨i, h⟩ := by
  intro s
  induction s with
  | nil => intro k i h; exact absurd h (by simp)
  | cons r rest ih =>
    intro k i h h2
    cases i with
    | zero => simp [apply_to_redact]
    | succ j =>
      have hj : j < rest.length := Nat.lt_of_succ_lt_succ h
      have hj2 : j < (apply_to_redact idxs (k + 1) rest).length := by
        rw [apply_to_redact_length]; exact hj
      have hidx : k + (j + 1) = (k + 1) + j := by omega
      simp only [apply_to_redact, List.get_cons_succ]
      rw [ih (k + 1) j hj hj2, hidx]

theorem apply_to_redact_monotone (idxs : List ℕ) (k : ℕ) (s : List OutputRow)
    (i : ℕ) (h : i < s.length) (h2 : i < (apply_to_redact idxs k s).length)
    (hr : (s.get ⟨i, h⟩).is_redacted = true) :
    ((apply_to_redact idxs k s).get ⟨i, h2⟩).is_redacted = true := by
  rw [apply_to_redact_get idxs s k i h h2]
  by_cases hm : (k + i) ∈ idxs
  · rw [if_pos hm]
  · rw [if_neg hm]; exact hr

theorem count_non_redacted_apply_le (idxs : List ℕ) :
    ∀ (s : List OutputRow) (k : ℕ),
      count_non_redacted (apply_to_redact idxs k s) ≤ count_non_redacted s := by
  intro s
  induction s with
  | nil => intro k; exact Nat.le_refl _
  | cons r rest ih =>
    intro k
    have hrest := ih (k + 1)
    by_cases hm : k ∈ idxs
    · simp only [apply_to_redact, if_pos hm, count_non_redacted_cons]
      by_cases hr : r.is_redacted <;> simp [hr] <;> omega
    · simp only [apply_to_redact, if_neg hm, count_non_redacted_cons]
      omega

theorem count_non_redacted_apply_lt (idxs : List ℕ) :
    ∀ (s : List OutputRow) (k i : ℕ) (h : i < s.length),
      (k + i) ∈ idxs → (s.get ⟨i, h⟩).is_redacted = false →
      count_non_redacted (apply_to_redact idxs k s) < count_non_redacted s := by
  intro s
  induction s with
  | nil => intro k i h; exact absurd h (by simp)
  | cons r rest ih =>
    intro k i h hmem hnr
    cases i with
    | zero =>
      have hm : k ∈ idxs := by simpa using hmem
      have hr : r.is_redacted = false := by simpa using hnr
      have hle := count_non_redacted_apply_le idxs rest (k + 1)
      simp only [apply_to_redact, if_pos hm, count_non_redacted_cons]
      simp [hr]
      omega
    | succ j =>
      have hj : j < rest.length := Nat.lt_of_succ_lt_succ h
      have hmem2 : (k + 1) + j ∈ idxs := by
        have hidx : (k + 1) + j = k + (j + 1) := by omega
        rw [hidx]; exact hmem
      have hnr2 : (rest.get ⟨j, hj⟩).is_redacted = false := by simpa using hnr
      have hlt := ih (k + 1) j hj hmem2 hnr2
      by_cases hm : k ∈ idxs
      · simp only [apply_to_redact, if_pos hm, count_non_redacted_cons]
        by_cases hr : r.is_redacted <;> simp [hr] <;> omega
      · simp only [apply_to_redact, if_neg hm, count_non_redacted_cons]
        omega

theorem count_non_redacted_zero_all (s : List OutputRow)
    (h0 : count_non_redacted s = 0) :
    ∀ i (h : i < s.length), (s.get ⟨i, h⟩).is_redacted = true := by
  intro i h
  have hfil : s.filter (fun r => !r.is_redacted) = [] :=
    List.length_eq_zero.mp h0
  have hmem : s.get ⟨i, h⟩ ∈ s := List.get_mem s i h
  have hnot := List.filter_eq_nil_iff.mp hfil _ hmem
  simpa using hnot

theorem check_empty_of_all_redacted (check : List OutputRow → List ℕ)
    (hs : check_sound check) (s : List OutputRow)
    (hall : ∀ i (h : i < s.length), (s.get ⟨i, h⟩).is_redacted = true) :
    check s = [] := by
  cases hc : check s with
  | nil => rfl
  | cons i t =>
    obtain ⟨h, hnr⟩ := hs s i (by rw [hc]; exact List.mem_cons_self i t)
    rw [hall i h] at hnr
    exact Bool.noConfusion hnr

theorem kernel_loop_spec (check : List OutputRow → List ℕ)
    (hs : check_sound check) :
    ∀ (fuel : ℕ) (s : List OutputRow), count_non_redacted s ≤ fuel →
      ∃ s2, kernel_loop_fuel check fuel s = some s2 ∧ s2.length = s.length ∧
        ∀ i (h : i < s.length) (h2 : i < s2.length),
          (s.get ⟨i, h⟩).is_redacted = true →
          (s2.get ⟨i, h2⟩).is_redacted = true := by
  intro fuel
  induction fuel with
  | zero =>
    intro s hcount
    have h0 : count_non_redacted s = 0 := Nat.le_zero.mp hcount
    have hc : check s = [] := check_empty_of_all_redacted check hs s
      (count_non_redacted_zero_all s h0)
    exact ⟨s, by simp [kernel_loop_fuel, hc], rfl, fun i h h2 hr => hr⟩
  | succ n ih =>
    intro s hcount
    by_cases hc : check s = []
    · exact ⟨s, by simp [kernel_loop_fuel, hc], rfl, fun i h h2 hr => hr⟩
    · obtain ⟨i0, t, hct⟩ : ∃ i0 t, check s = i0 :: t := by
        cases hcs : check s with
        | nil => exact absurd hcs hc
        | cons a b => exact ⟨a, b, rfl⟩
      have hmem0 : i0 ∈ check s := by rw [hct]; exact List.mem_cons_self _ _
      obtain ⟨hi0, hnr0⟩ := hs s i0 hmem0
      have hlt : count_non_redacted (apply_to_redact (check s) 0 s)
          < count_non_redacted s := by
        apply count_non_redacted_apply_lt (check s) s 0 i0 hi0 ?_ hnr0
        simpa using hmem0
      obtain ⟨s2, heq, hlen, hmono⟩ := ih (apply_to_redact (check s) 0 s)
        (by omega)
      refine ⟨s2, ?_, ?_, ?_⟩
      · simp [kernel_loop_fuel, hc, heq]
      · rw [hlen, apply_to_redact_length]
      · intro i h h2 hr
        have hi1 : i < (apply_to_redact (check s) 0 s).length := by
          rw [apply_to_redact_length]; exact h
        exact hmono i hi1 h2 (apply_to_redact_monotone (check s) 0 s i h hi1 hr)

theorem kernel_loop_fuel_monotone (check : List OutputRow → List ℕ) :
    ∀ (fuel : ℕ) (s s2 : List OutputRow),
      kernel_loop_fuel check fuel s = some s2 →
      ∀ i (h : i < s.length) (h2 : i < s2.length),
        (s.get ⟨i, h⟩).is_redacted = true →
        (s2.get ⟨i, h2⟩).is_redacted = true := by
  intro fuel
  induction fuel with
  | zero =>
    intro s s2 heq i h h2 hr
    by_cases hc : check s = []
    · simp [kernel_loop_fuel, hc] at heq
      subst heq; exact hr
    · simp [kernel_loop_fuel, hc] at heq
  | succ n ih =>
    intro s s2 heq i h h2 hr
    by_cases hc : check s = []
    · simp [kernel_loop_fuel, hc] at heq
      subst heq; exact hr
    · simp only [kernel_loop_fuel, if_neg hc] at heq
      have hi1 : i < (apply_to_redact (check s) 0 s).length := by
        rw [apply_to_redact_length]; exact h
      exact ih _ _ heq i hi1 h2
        (apply_to_redact_monotone (check s) 0 s i h hi1 hr)

theorem check_non_redacted_non_anonymous_sound :
    check_sound check_non_redacted_non_anonymous := by
  intro s i hmem
  simp only [check_non_redacted_non_anonymous, List.mem_filter,
    List.mem_range] at hmem
  obtain ⟨hlt, hpred⟩ := hmem
  refine ⟨hlt, ?_⟩
  rw [List.get?_eq_get hlt] at hpred
  simp at hpred
  exact hpred.2

/-- C3: after `modify_output_for_redaction` runs, a non-anonymous row is
redacted — indeed `is_redacted` is exactly `NOT is_anonymous` — and every
non-anonymous row carries the reason text
`value meets redaction criteria '<predicate>'`; moreover no kernel iteration
ever unsets `is_redacted`: any terminating run of the fixed-point loop
preserves every already-redacted row. -/
theorem modify_output_for_redaction_closure
    (redaction_expr : String) (result : List ResultRow) :
    (∀ r ∈ modify_output_for_redaction redaction_expr result,
      r.is_anonymous = false → r.is_redacted = true) ∧
    (∀ r ∈ modify_output_for_redaction redaction_expr result,
      r.is_redacted = !r.is_anonymous) ∧
    (∀ r ∈ modify_output_for_redaction redaction_expr result,
      r.is_anonymous = false →
      r.redaction_reason
        = some ("value meets redaction criteria \x27" ++ redaction_expr ++ "\x27")) ∧
    (∀ (check : List OutputRow → List ℕ) (fuel : ℕ) (s s2 : List OutputRow),
      kernel_loop_fuel check fuel s = some s2 →
      ∀ i (h : i < s.length) (h2 : i < s2.length),
        (s.get ⟨i, h⟩).is_redacted = true →
        (s2.get ⟨i, h2⟩).is_redacted = true) := by
  refine ⟨?_, ?_, ?_, fun check fuel s s2 => kernel_loop_fuel_monotone check fuel s s2⟩
  · intro r hrm
    simp only [modify_output_for_redaction] at hrm
    obtain ⟨r0, _, rfl⟩ := List.mem_map.mp hrm
    by_cases h0 : r0.is_anonymous <;> simp [h0]
  · intro r hrm
    simp only [modify_output_for_redaction] at hrm
    obtain ⟨r0, _, rfl⟩ := List.mem_map.mp hrm
    by_cases h0 : r0.is_anonymous <;> simp [h0]
  · intro r hrm
    simp only [modify_output_for_redaction] at hrm
    obtain ⟨r0, _, rfl⟩ := List.mem_map.mp hrm
    by_cases h0 : r0.is_anonymous <;> simp [h0]

/-- Witness for C3: the non-anonymous row of `example_result` is redacted in
the initialized output, and a terminating one-step kernel run preserves the
redacted flag of an already-redacted row. -/
theorem modify_output_for_redaction_closure_witness :
    (⟨1, false, true,
      some ("value meets redaction criteria \x27m_0 < 11\x27")⟩ : OutputRow).is_redacted
      = true ∧
    (([⟨7, false, true, none⟩] : List OutputRow).get
      ⟨0, Nat.zero_lt_one⟩).is_redacted = true := by
  constructor
  · exact (modify_output_for_redaction_closure "m_0 < 11" example_result).1
      ⟨1, false, true, some ("value meets redaction criteria \x27m_0 < 11\x27")⟩
      (by decide) (by decide)
  · exact (modify_output_for_redaction_closure "m_0 < 11" example_result).2.2.2
      check_non_redacted_non_anonymous 1
      [⟨7, false, true, none⟩] [⟨7, false, true, none⟩] (by decide)
      0 Nat.zero_lt_one Nat.zero_lt_one (by decide)

/-- C5 counterexample: with a divergent to-redact computation (`bad_check`
always demands row 0) the inner loop of `redact_from_non_anonymous_cells` is
still running after 100 iterations — far beyond any `N × |rows|` cap for this
one-row table — instead of failing with a diagnostic dump: the Python loop
has no safety cap at all. -/
theorem kernel_loop_runs_past_any_cap :
    kernel_loop_fuel bad_check 100 one_row_output = none := by
  decide

/-- C5 (amended): for every sound to-redact computation per dimension subset
(each returned index is a valid, not-yet-redacted row), the suppression
kernel terminates: every inner iteration redacts at least one previously
non-redacted row and never unsets one, so each subset's loop finishes within
`|rows|` iterations and the whole pass within `|rows| × |subsets|`; the code
applies no safety cap and produces no diagnostic failure. -/
theorem run_subsets_terminates (checks : List (List OutputRow → List ℕ))
    (hs : ∀ c ∈ checks, check_sound c) (s : List OutputRow) :
    ∃ s2, run_subsets checks s = some s2 := by
  induction checks generalizing s with
  | nil => exact ⟨s, rfl⟩
  | cons c rest ih =>
    have hc : check_sound c := hs c (List.mem_cons_self _ _)
    have hcount : count_non_redacted s ≤ s.length := by
      simpa [count_non_redacted] using List.length_filter_le _ s
    obtain ⟨s1, heq, _, _⟩ := kernel_loop_spec c hc s.length s hcount
    obtain ⟨s2, heq2⟩ := ih (fun c2 h2 => hs c2 (List.mem_cons_of_mem _ h2)) s1
    exact ⟨s2, by simp [run_subsets, heq, heq2]⟩

/-- Witness for C5: the kernel terminates on a concrete two-row table with
the sound primary-suppression check. -/
theorem run_subsets_terminates_witness :
    ∃ s2, run_subsets [check_non_redacted_non_anonymous]
      [⟨0, true, false, none⟩, ⟨1, false, false, none⟩] = some s2 :=
  run_subsets_terminates [check_non_redacted_non_anonymous]
    (by
      intro c hcm
      rw [List.mem_singleton] at hcm
      rw [hcm]
      exact check_non_redacted_non_anonymous_sound)
    [⟨0, true, false, none⟩, ⟨1, false, false, none⟩]

/-- C1: for every input to `should_redact_along_axis`, a non-anonymous cell
is redacted; an anonymous cell whose predecessor is unredacted is not; with a
redacted predecessor, if the remainder `run_sum_by_axis - incidence` reaches
the threshold the answer is `masked_value_count < 2` by default and
`previous_cell_is_anonymous is False and masked_value_count < 2` under
`first_order_only`, and below the threshold the cell is redacted. -/
theorem should_redact_along_axis_case_analysis
    (incidence minimum_threshold run_sum_by_axis : ℚ) (masked_value_count : ℤ)
    (pcr pca : Option Bool) (is_anonymous first_order_only : Bool) :
    (is_anonymous = false →
      should_redact_along_axis incidence masked_value_count minimum_threshold
        is_anonymous pcr pca run_sum_by_axis first_order_only = true) ∧
    (is_anonymous = true → pcr = some false →
      should_redact_along_axis incidence masked_value_count minimum_threshold
        is_anonymous pcr pca run_sum_by_axis first_order_only = false) ∧
    (is_anonymous = true → pcr = some true →
      ((minimum_threshold ≤ run_sum_by_axis - incidence →
        (first_order_only = false →
          should_redact_along_axis incidence masked_value_count
            minimum_threshold is_anonymous pcr pca run_sum_by_axis
            first_order_only = decide (masked_value_count < 2)) ∧
        (first_order_only = true →
          should_redact_along_axis incidence masked_value_count
            minimum_threshold is_anonymous pcr pca run_sum_by_axis
            first_order_only
            = ((pca == some false) && decide (masked_value_count < 2)))) ∧
      (run_sum_by_axis - incidence < minimum_threshold →
        should_redact_along_axis incidence masked_value_count
          minimum_threshold is_anonymous pcr pca run_sum_by_axis
          first_order_only = true))) := by
  refine ⟨?_, ?_, ?_⟩
  · intro h
    simp [should_redact_along_axis, h]
  · intro h1 h2
    simp [should_redact_along_axis, h1, h2]
  · intro h1 h2
    refine ⟨fun hle => ⟨?_, ?_⟩, fun hlt => ?_⟩
    · intro h3
      simp [should_redact_along_axis, h1, h2, h3, hle]
    · intro h3
      simp [should_redact_along_axis, h1, h2, h3, hle]
    · simp [should_redact_along_axis, h1, h2, not_le.mpr hlt]

/-- Witness for C1: the three top-level cases evaluated at concrete inputs
(the third with remainder 15 over threshold 11 and one prior mask). -/
theorem should_redact_along_axis_case_analysis_witness :
    should_redact_along_axis 5 0 11 false none none 0 false = true ∧
    should_redact_along_axis 5 0 11 true (some false) none 0 false = false ∧
    should_redact_along_axis 5 1 11 true (some true) none 20 false = true := by
  refine ⟨?_, ?_, ?_⟩
  · exact (should_redact_along_axis_case_analysis 5 11 0 0 none none
      false false).1 rfl
  · exact (should_redact_along_axis_case_analysis 5 11 0 0 (some false) none
      true false).2.1 rfl rfl
  · have h := ((should_redact_along_axis_case_analysis 5 11 20 1 (some true)
      none true false).2.2 rfl rfl).1 (by norm_num)
    rw [h.1 rfl]
    decide

/-- C2 counterexample: in the registered (utils) `should_redact_along_axis`,
with `is_anonymous` true and `previous_cell_redacted = None` the function
returns true whenever the remainder is below the threshold (here remainder 0
against threshold 11), not false as the claim states. -/
theorem should_redact_none_predecessor_cx :
    should_redact_along_axis 10 0 11 true none none 10 false = true := by
  norm_num [should_redact_along_axis]

/-- C2 (amended): the utils variant of `should_redact_along_axis` gives a
`None` predecessor exactly the same treatment as a redacted (`True`)
predecessor, while the `redaction_utils` variant returns false for a `None`
predecessor regardless of the other inputs. -/
theorem should_redact_none_predecessor_behavior
    (incidence minimum_threshold run_sum_by_axis : ℚ) (masked_value_count : ℤ)
    (pca : Option Bool) (first_order_only : Bool) :
    should_redact_along_axis incidence masked_value_count minimum_threshold
        true none pca run_sum_by_axis first_order_only
      = should_redact_along_axis incidence masked_value_count
        minimum_threshold true (some true) pca run_sum_by_axis
        first_order_only ∧
    RedactionUtils.should_redact_along_axis incidence masked_value_count
        minimum_threshold true none run_sum_by_axis = false := by
  constructor
  · simp [should_redact_along_axis]
  · simp [RedactionUtils.should_redact_along_axis]

/-- C4: on the single-axis peer group race = white:100, black:50, asian:20,
native_am:10 at threshold 11, the collection loop masks exactly native_am and
asian (both of them), leaving black and white unmasked, and does not carry a
pending anonymization into the next peer group. -/
theorem race_peer_group_masks_two_values :
    collect_redactions_from_peer_relation anon_at_11 race_peer_rows
      race_peer_rows false = (["native_am", "asian"], false) := by
  decide

/-- C6 counterexample: with no configured redaction expression and configured
threshold 20, the engine's default predicate is still `m_0 < 11` (the module
constant `DEFAULT_THRESHOLD`), not the claimed `m_0 < 20`. -/
theorem redaction_expression_ignores_configured_threshold :
    redaction_expression none "m_0" = "m_0 < 11" ∧
    redaction_expression_spec none "m_0" 20 = "m_0 < 20" ∧
    redaction_expression none "m_0" ≠ redaction_expression_spec none "m_0" 20 := by
  refine ⟨rfl, rfl, ?_⟩
  decide

/-- C6 (amended): with no configured redaction expression the predicate
defaults to `<first metric alias> < 11`, interpolating the constant
`DEFAULT_THRESHOLD = 11` regardless of the configured threshold, and
`is_anonymous` is derived from the negated predicate (`not <expr>`). -/
theorem redaction_expression_default_eleven
    (config_redaction_expression : Option String) (first_metric_alias : String) :
    redaction_expression none first_metric_alias
      = first_metric_alias ++ " < 11" ∧
    anonymous_expression config_redaction_expression first_metric_alias
      = "not "
        ++ redaction_expression config_redaction_expression first_metric_alias := by
  constructor
  · have h : " < " ++ toString DEFAULT_THRESHOLD = " < 11" := rfl
    simp [redaction_expression, falsy_str, String.append_assoc, h]
  · rfl

/-- C7 (code-bug evidence): with `redaction_order_dimensions =
[month, county]`, target `sex` and first metric alias `m_0`, passing the
ORDER BY columns through `list(set(...))` admits enumerations that do not
put the redaction-order dimensions first: the reversed enumeration is an
admissible output of `list(set(...))` and differs from the claimed ordered
list. -/
theorem order_by_columns_order_not_guaranteed :
    python_list_set_admissible
      (order_by_columns_input ["month", "county"] "sex" "m_0")
      ((order_by_columns_input ["month", "county"] "sex" "m_0").dedup.reverse) ∧
    (order_by_columns_input ["month", "county"] "sex" "m_0").dedup.reverse
      ≠ order_by_columns_input ["month", "county"] "sex" "m_0" := by
  constructor
  · exact List.reverse_perm _
  · decide

/-- C8 counterexample: a `reduce-dimensions` strategy is dispatched to no
branch at all: the dispatcher returns successfully with the state unchanged
instead of failing with a not-implemented error. -/
theorem reduce_dimensions_strategy_silently_skipped :
    process_one_suppression_strategy id id "reduce-dimensions" ⟨[]⟩
      = Except.ok ⟨[]⟩ := rfl

/-- C8 (amended): only `merge-dimension-values` fails explicitly with the
`NotImplementedError` raised before any state is touched; `reduce-dimensions`
and `fabricate-unit-records` match no dispatch branch and are silently
skipped, returning the engine state unchanged. -/
theorem strategy_dispatch_behavior
    (replace_fn mark_fn : EngineState → EngineState) (s : EngineState) :
    process_one_suppression_strategy replace_fn mark_fn
        "merge-dimension-values" s
      = Except.error (EngineError.notImplemented
        "This actually needs more thoughtful implementation, but so-far irrelevant to proof of concept. ") ∧
    process_one_suppression_strategy replace_fn mark_fn "reduce-dimensions" s
      = Except.ok s ∧
    process_one_suppression_strategy replace_fn mark_fn
        "fabricate-unit-records" s
      = Except.ok s := by
  exact ⟨rfl, rfl, rfl⟩

/-- C9 counterexample: a single configured metric that is not flagged initial
is not duplicated across phases (the result still has one metric, flipped to
initial), and when its `is_subsequent` was explicitly false no metric in the
result has `is_subsequent = true`. -/
theorem metrics_setter_single_non_initial_cx :
    metrics_setter none [single_subsequent_metric]
      = [⟨Aggregation.sum, "n", some "m_0", true, false⟩] ∧
    (metrics_setter none [single_subsequent_metric]).length = 1 ∧
    (metrics_setter none [single_subsequent_metric]).all
      (fun m => !m.is_subsequent) = true := by
  refine ⟨?_, ?_, ?_⟩ <;> decide

theorem assign_aliases_length (i : ℕ) (l : List Metric) :
    (assign_aliases i l).length = l.length := by
  induction l generalizing i with
  | nil => rfl
  | cons a rest ih => simp [assign_aliases, ih]

theorem alias_nonempty_of_some (m : Metric) (s : String) (h : m.alias = some s)
    (hs : s.length ≠ 0) : alias_nonempty m = true := by
  simp [alias_nonempty, h]
  omega

theorem assign_aliases_alias_nonempty : ∀ (i : ℕ) (l : List Metric),
    ∀ m ∈ assign_aliases i l, alias_nonempty m = true := by
  intro i l
  induction l generalizing i with
  | nil => intro m hm; simp [assign_aliases] at hm
  | cons a rest ih =>
    intro m hm
    rw [assign_aliases] at hm
    rcases List.mem_cons.mp hm with h | h
    · subst h
      by_cases hf : falsy_alias a.alias
      · have hupd :
            ({ a with «alias» :=
              if falsy_alias a.alias then some ("m_" ++ toString i)
              else a.alias } : Metric).alias = some ("m_" ++ toString i) := by
          simp [hf]
        refine alias_nonempty_of_some _ _ hupd ?_
        have h2 : String.length "m_" = 2 := rfl
        rw [String.length_append]
        omega
      · cases ha : a.alias with
        | none => rw [ha] at hf; exact absurd rfl hf
        | some str =>
          have hne : ¬ str.length = 0 := by
            intro h0
            exact hf (by simp [ha, falsy_alias, h0])
          have hupd :
              ({ a with «alias» :=
                if falsy_alias (some str) then some ("m_" ++ toString i)
                else some str } : Metric).alias = some str := by
            simp [falsy_alias, hne]
          exact alias_nonempty_of_some _ _ hupd hne
    · exact ih (i + 1) m h

theorem assign_aliases_flags : ∀ (i : ℕ) (l : List Metric),
    ∀ m ∈ assign_aliases i l, ∃ m0 ∈ l,
      m.is_initial = m0.is_initial ∧ m.is_subsequent = m0.is_subsequent := by
  intro i l
  induction l generalizing i with
  | nil => intro m hm; simp [assign_aliases] at hm
  | cons a rest ih =>
    intro m hm
    rw [assign_aliases] at hm
    rcases List.mem_cons.mp hm with h | h
    · subst h
      exact ⟨a, List.mem_cons_self _ _, rfl, rfl⟩
    · obtain ⟨m0, hm0, hflags⟩ := ih (i + 1) m h
      exact ⟨m0, List.mem_cons_of_mem _ hm0, hflags⟩

theorem with_sum_duplicate_mem (l : List Metric) (m : Metric)
    (hm : m ∈ with_sum_duplicate l) :
    m ∈ l ∨ ∃ m0, l = [m0] ∧
      m = ⟨Aggregation.sum, m0.alias.getD "", m0.alias, false, true⟩ := by
  cases l with
  | nil => left; simp [with_sum_duplicate] at hm
  | cons m0 tail =>
    cases tail with
    | nil =>
      by_cases h0 : m0.is_initial
      · simp only [with_sum_duplicate, if_pos h0] at hm
        rcases List.mem_cons.mp hm with h | h
        · left; rw [h]; exact List.mem_singleton_self _
        · right; exact ⟨m0, rfl, by simpa using h⟩
      · simp only [with_sum_duplicate, if_neg h0] at hm
        left; exact hm
    | cons m1 rest => left; simpa [with_sum_duplicate] using hm

theorem fix_phases_mem (l : List Metric) (m : Metric) (hm : m ∈ fix_phases l) :
    ∃ m0 ∈ l, m = m0 ∨ m = { m0 with is_initial := true }
      ∨ m = { m0 with is_subsequent := true } := by
  simp only [fix_phases] at hm
  by_cases h1 : (l.filter fun x => x.is_initial).isEmpty
  · rw [if_pos h1] at hm
    obtain ⟨m0, hmem, rfl⟩ := List.mem_map.mp hm
    exact ⟨m0, (List.mem_filter.mp hmem).1, Or.inr (Or.inl rfl)⟩
  · rw [if_neg h1] at hm
    by_cases h2 : (l.filter fun x => !x.is_initial).isEmpty
    · rw [if_pos h2] at hm
      obtain ⟨m0, hmem, rfl⟩ := List.mem_map.mp hm
      exact ⟨m0, (List.mem_filter.mp hmem).1, Or.inr (Or.inr rfl)⟩
    · rw [if_neg h2] at hm
      rcases List.mem_append.mp hm with h | h
      · exact ⟨m, (List.mem_filter.mp h).1, Or.inl rfl⟩
      · exact ⟨m, (List.mem_filter.mp h).1, Or.inl rfl⟩

theorem default_metrics_ne_nil (uid : Option String) (ms : List Metric) :
    default_metrics uid ms ≠ [] := by
  by_cases h : ms.isEmpty
  · simp only [default_metrics, if_pos h]
    cases uid <;> simp
  · simp only [default_metrics, if_neg h]
    intro hn
    rw [hn] at h
    exact h rfl

theorem assign_aliases_ne_nil (i : ℕ) (l : List Metric) (hl : l ≠ []) :
    assign_aliases i l ≠ [] := by
  intro hn
  apply hl
  have hlen := assign_aliases_length i l
  rw [hn] at hlen
  exact List.length_eq_zero.mp hlen.symm

theorem with_sum_duplicate_ne_nil (l : List Metric) (hl : l ≠ []) :
    with_sum_duplicate l ≠ [] := by
  cases l with
  | nil => exact absurd rfl hl
  | cons m0 tail =>
    cases tail with
    | nil => by_cases h0 : m0.is_initial <;> simp [with_sum_duplicate, h0]
    | cons m1 rest => simp [with_sum_duplicate]

theorem filter_not_initial_eq_self (l : List Metric)
    (hfilnil : (l.filter fun x => x.is_initial) = []) :
    (l.filter fun x => !x.is_initial) = l := by
  apply List.filter_eq_self.mpr
  intro m hm
  have := List.filter_eq_nil_iff.mp hfilnil m hm
  simpa using this

theorem fix_phases_exists_initial (l : List Metric) (hl : l ≠ []) :
    ∃ m ∈ fix_phases l, m.is_initial = true := by
  simp only [fix_phases]
  by_cases h1 : (l.filter fun x => x.is_initial).isEmpty
  · rw [if_pos h1]
    have hfilnil : (l.filter fun x => x.is_initial) = [] := by simpa using h1
    rw [filter_not_initial_eq_self l hfilnil]
    obtain ⟨m0, hm0⟩ := List.exists_mem_of_ne_nil l hl
    exact ⟨{ m0 with is_initial := true }, List.mem_map_of_mem _ hm0, rfl⟩
  · rw [if_neg h1]
    have hne : (l.filter fun x => x.is_initial) ≠ [] := by
      intro hnil; rw [hnil] at h1; exact h1 rfl
    obtain ⟨m0, hm0⟩ := List.exists_mem_of_ne_nil _ hne
    have hinit : m0.is_initial = true := by
      simpa using (List.mem_filter.mp hm0).2
    by_cases h2 : (l.filter fun x => !x.is_initial).isEmpty
    · rw [if_pos h2]
      exact ⟨{ m0 with is_subsequent := true }, List.mem_map_of_mem _ hm0, hinit⟩
    · rw [if_neg h2]
      exact ⟨m0, List.mem_append_left _ hm0, hinit⟩

theorem fix_phases_exists_subsequent (l : List Metric) (hl : l ≠ [])
    (hmix : ∀ m ∈ l, m.is_initial = false → m.is_subsequent = true) :
    ∃ m ∈ fix_phases l, m.is_subsequent = true := by
  simp only [fix_phases]
  by_cases h1 : (l.filter fun x => x.is_initial).isEmpty
  · rw [if_pos h1]
    have hfilnil : (l.filter fun x => x.is_initial) = [] := by simpa using h1
    rw [filter_not_initial_eq_self l hfilnil]
    obtain ⟨m0, hm0⟩ := List.exists_mem_of_ne_nil l hl
    have hini : m0.is_initial = false := by
      have := List.filter_eq_nil_iff.mp hfilnil m0 hm0
      simpa using this
    exact ⟨{ m0 with is_initial := true }, List.mem_map_of_mem _ hm0,
      hmix m0 hm0 hini⟩
  · rw [if_neg h1]
    by_cases h2 : (l.filter fun x => !x.is_initial).isEmpty
    · rw [if_pos h2]
      have hne : (l.filter fun x => x.is_initial) ≠ [] := by
        intro hnil; rw [hnil] at h1; exact h1 rfl
      obtain ⟨m0, hm0⟩ := List.exists_mem_of_ne_nil _ hne
      exact ⟨{ m0 with is_subsequent := true }, List.mem_map_of_mem _ hm0, rfl⟩
    · rw [if_neg h2]
      have hne2 : (l.filter fun x => !x.is_initial) ≠ [] := by
        intro hnil; rw [hnil] at h2; exact h2 rfl
      obtain ⟨m0, hm0⟩ := List.exists_mem_of_ne_nil _ hne2
      have hini : m0.is_initial = false := by
        simpa using (List.mem_filter.mp hm0).2
      exact ⟨m0, List.mem_append_right _ hm0,
        hmix m0 (List.mem_filter.mp hm0).1 hini⟩

theorem metrics3_mix (uid : Option String) (ms : List Metric)
    (hdefault : ∀ m ∈ ms, m.is_subsequent = !m.is_initial) :
    ∀ m ∈ with_sum_duplicate (assign_aliases 0 (default_metrics uid ms)),
      m.is_initial = false → m.is_subsequent = true := by
  intro m hm hini
  rcases with_sum_duplicate_mem _ m hm with h | ⟨m0, heq, rfl⟩
  · obtain ⟨m1, hm1, hflag1, hflag2⟩ := assign_aliases_flags 0 _ m h
    by_cases hempty : ms.isEmpty
    · simp only [default_metrics, if_pos hempty] at hm1
      cases uid with
      | none =>
        have hval : m1 = ⟨Aggregation.count, "*", none, true, false⟩ := by
          simpa using hm1
        have hini1 : m1.is_initial = true := by rw [hval]
        rw [hflag1, hini1] at hini
        exact Bool.noConfusion hini
      | some u =>
        have hval : m1 = ⟨Aggregation.count_distinct, u, none, true, false⟩ := by
          simpa using hm1
        have hini1 : m1.is_initial = true := by rw [hval]
        rw [hflag1, hini1] at hini
        exact Bool.noConfusion hini
    · simp only [default_metrics, if_neg hempty] at hm1
      have h1 : m1.is_initial = false := by rw [← hflag1]; exact hini
      rw [hflag2, hdefault m1 hm1, h1]
      rfl
  · rfl

theorem metrics_setter_single_initial (uid : Option String) (m1 : Metric)
    (h : m1.is_initial = true) :
    ∃ a : String, metrics_setter uid [m1]
      = [{ m1 with «alias» := some a },
         ⟨Aggregation.sum, a, some a, false, true⟩] := by
  obtain ⟨agg, col, al, ini, sub⟩ := m1
  have h2 : ini = true := h
  subst h2
  cases al with
  | none =>
    refine ⟨"m_0", ?_⟩
    have hm0 : "m_" ++ toString 0 = "m_0" := rfl
    simp [metrics_setter, default_metrics, assign_aliases, falsy_alias,
      with_sum_duplicate, fix_phases, hm0]
  | some str =>
    by_cases hlen : str.length = 0
    · refine ⟨"m_0", ?_⟩
      have hm0 : "m_" ++ toString 0 = "m_0" := rfl
      simp [metrics_setter, default_metrics, assign_aliases, falsy_alias,
        with_sum_duplicate, fix_phases, hlen, hm0]
    · refine ⟨str, ?_⟩
      simp [metrics_setter, default_metrics, assign_aliases, falsy_alias,
        with_sum_duplicate, fix_phases, hlen]

theorem metrics_setter_single_non_initial (uid : Option String) (m1 : Metric)
    (h : m1.is_initial = false) :
    ∃ a : String, metrics_setter uid [m1]
      = [{ m1 with «alias» := some a, is_initial := true }] := by
  obtain ⟨agg, col, al, ini, sub⟩ := m1
  have h2 : ini = false := h
  subst h2
  cases al with
  | none =>
    refine ⟨"m_0", ?_⟩
    have hm0 : "m_" ++ toString 0 = "m_0" := rfl
    simp [metrics_setter, default_metrics, assign_aliases, falsy_alias,
      with_sum_duplicate, fix_phases, hm0]
  | some str =>
    by_cases hlen : str.length = 0
    · refine ⟨"m_0", ?_⟩
      have hm0 : "m_" ++ toString 0 = "m_0" := rfl
      simp [metrics_setter, default_metrics, assign_aliases, falsy_alias,
        with_sum_duplicate, fix_phases, hlen, hm0]
    · refine ⟨str, ?_⟩
      simp [metrics_setter, default_metrics, assign_aliases, falsy_alias,
        with_sum_duplicate, fix_phases, hlen]

/-- C9 (amended): after the metrics setter runs — provided each configured
metric kept pydantic's default `is_subsequent = not is_initial` — every
resulting metric has a non-empty alias (auto-assigned `m_0`, `m_1`, … when
absent), at least one metric has `is_initial = true` and at least one has
`is_subsequent = true`; a single given metric is duplicated across phases
with a `sum(alias)` subsequent form exactly when it is marked initial, and a
single non-initial metric is instead itself flipped to initial and remains
the only metric. -/
theorem metrics_setter_invariants (unit_level_id : Option String)
    (metrics0 : List Metric)
    (hdefault : ∀ m ∈ metrics0, m.is_subsequent = !m.is_initial) :
    (∀ m ∈ metrics_setter unit_level_id metrics0, alias_nonempty m = true) ∧
    (∃ m ∈ metrics_setter unit_level_id metrics0, m.is_initial = true) ∧
    (∃ m ∈ metrics_setter unit_level_id metrics0, m.is_subsequent = true) ∧
    (∀ m1, metrics0 = [m1] → m1.is_initial = true →
      ∃ a : String, metrics_setter unit_level_id metrics0
        = [{ m1 with «alias» := some a },
           ⟨Aggregation.sum, a, some a, false, true⟩]) ∧
    (∀ m1, metrics0 = [m1] → m1.is_initial = false →
      ∃ a : String, metrics_setter unit_level_id metrics0
        = [{ m1 with «alias» := some a, is_initial := true }]) := by
  have hne3 : with_sum_duplicate
      (assign_aliases 0 (default_metrics unit_level_id metrics0)) ≠ [] :=
    with_sum_duplicate_ne_nil _
      (assign_aliases_ne_nil _ _ (default_metrics_ne_nil _ _))
  refine ⟨?_, ?_, ?_, ?_, ?_⟩
  · intro m hm
    obtain ⟨m1, hm1, hcase⟩ := fix_phases_mem _ m hm
    have halias : alias_nonempty m1 = true := by
      rcases with_sum_duplicate_mem _ m1 hm1 with h | ⟨m0, heq, rfl⟩
      · exact assign_aliases_alias_nonempty 0 _ m1 h
      · have hm0mem : m0 ∈ assign_aliases 0
            (default_metrics unit_level_id metrics0) := by
          rw [heq]; exact List.mem_singleton_self _
        exact assign_aliases_alias_nonempty 0 _ m0 hm0mem
    rcases hcase with rfl | rfl | rfl
    · exact halias
    · exact halias
    · exact halias
  · exact fix_phases_exists_initial _ hne3
  · exact fix_phases_exists_subsequent _ hne3
      (metrics3_mix unit_level_id metrics0 hdefault)
  · intro m1 hms hint
    subst hms
    exact metrics_setter_single_initial unit_level_id m1 hint
  · intro m1 hms hint
    subst hms
    exact metrics_setter_single_non_initial unit_level_id m1 hint

/-- Witness for C9: the default `count(*)` metric list, which satisfies the
pydantic-default hypothesis; in the activated result the first metric carries
the auto-assigned alias `m_0`. -/
theorem metrics_setter_invariants_witness :
    alias_nonempty (⟨Aggregation.count, "*", some "m_0", true, false⟩ : Metric)
      = true := by
  have h := metrics_setter_invariants none
    [⟨Aggregation.count, "*", none, true, false⟩] (by decide)
  exact h.1 ⟨Aggregation.count, "*", some "m_0", true, false⟩ (by decide)

/-- C10: in every redaction coordinate map produced for the replace strategy,
a dimension recorded as None/NULL is tested with an `IS NULL` predicate
rather than an equality, so a row whose target-dimension value is NULL (and
which matches the peer's other dimension values) satisfies the generated WHEN
condition and is rewritten to the masking value. -/
theorem null_dimension_value_uses_is_null
    (other_dimension_values : List (String × Option String))
    (dimension : String) (remapped_lookup : List (Option String × String))
    (masking_value : String) (row : String → Option String)
    (hmem : (none, masking_value) ∈ remapped_lookup)
    (hrow : ∀ kv ∈ other_dimension_values, row kv.1 = kv.2)
    (hdim : row dimension = none) :
    ∃ w ∈ make_when_statements_from_redaction other_dimension_values
        dimension remapped_lookup,
      DuckExpr.isNull dimension ∈ w.condition ∧
      evalWhenStatement row w = some masking_value := by
  refine ⟨make_when_statement_from_dict
    (other_dimension_values ++ [(dimension, none)]) masking_value, ?_, ?_, ?_⟩
  · exact List.mem_map_of_mem _ hmem
  · exact List.mem_map_of_mem _
      (List.mem_append_right _ (List.mem_singleton_self _))
  · have hall : (dict_to_filter_expressions
        (other_dimension_values ++ [(dimension, none)])).all
        (evalDuckExpr row) = true := by
      rw [List.all_eq_true]
      intro x hx
      obtain ⟨kv, hkv, rfl⟩ := List.mem_map.mp hx
      obtain ⟨k, v⟩ := kv
      rcases List.mem_append.mp hkv with h | h
      · have hr := hrow (k, v) h
        cases v with
        | some v0 => simpa [evalDuckExpr] using hr
        | none => simpa [evalDuckExpr] using hr
      · have hkv2 : (k, v) = (dimension, (none : Option String)) := by
          simpa using h
        rw [Prod.mk.injEq] at hkv2
        obtain ⟨rfl, rfl⟩ := hkv2
        simpa [evalDuckExpr] using hdim
    simp [evalWhenStatement, make_when_statement_from_dict, hall]

/-- Witness for C10: the coordinate `age = "20"` with a NULL target value for
dimension `race`, matched by a row whose `race` is NULL. -/
theorem null_dimension_value_uses_is_null_witness :
    ∃ w ∈ make_when_statements_from_redaction [("age", some "20")] "race"
        [(none, "redacted")],
      DuckExpr.isNull "race" ∈ w.condition ∧
      evalWhenStatement example_row w = some "redacted" :=
  null_dimension_value_uses_is_null [("age", some "20")] "race"
    [(none, "redacted")] "redacted" example_row (by decide)
    (by decide) (by decide)

end OstrichEgg
